import Mathlib

/-!
Verification development for the network exchange capture-query engine
(`src/tools/mod/network_search.ts`, `network_download.ts`,
`network_simplified.ts`, `network_utils.ts`).

Conventions of the embedding:
* Texts that the matching layer scans are `List Char`; the data-model fields
  keep `String` (a `String` is converted with `.data` exactly where the
  JavaScript code hands a string to the regex machinery).
* JavaScript `RegExp` (the underlying regex engine, an external collaborator)
  is modelled by a small engine over the construct subset exercised here:
  plain characters, `.`, backslash-escaped characters and the greedy postfix
  `*`; every other metacharacter is a compile error. Matching is
  case-insensitive, mirroring the unconditional `i` flag in the source.
* Fallible collaborator calls (`response.text()`, `request.resourceType()`)
  are modelled as `Option` values, `none` meaning the call throws / is
  unavailable.
-/

namespace NetCapture

/-- JS `String.prototype.toLowerCase` restricted to the ASCII data used here. -/
def lowerStr (s : String) : String := String.mk (s.data.map Char.toLower)

/-- JS `String.prototype.toUpperCase` restricted to the ASCII data used here. -/
def upperStr (s : String) : String := String.mk (s.data.map Char.toUpper)

/-- Substring containment on character lists (JS `String.prototype.includes`). -/
def containsSub (hay needle : List Char) : Bool :=
  hay.tails.any (fun t => needle.isPrefixOf t)

/-- Substring containment on strings. -/
def strContains (hay needle : String) : Bool := containsSub hay.data needle.data

/-! ## The modelled regex engine -/

/-- One atomic matcher of the engine subset: a character or the dot. -/
inductive RAtom
  | rchar (c : Char)
  | rdot
deriving DecidableEq

/-- An atom together with whether it carries a postfix `*`. -/
structure RItem where
  atom : RAtom
  starred : Bool
deriving DecidableEq

/-- A compiled pattern: the sequence of its items. -/
abbrev RE := List RItem

/-- The character class escaped by `escapeRegex` in the source:
`/[.*+?^$\x7b\x7d()|[\]\\]/`. -/
def isRegexMeta (c : Char) : Bool :=
  c = '.' || c = '*' || c = '+' || c = '?' || c = '^' || c = '$' ||
  c = '\x7b' || c = '\x7d' || c = '(' || c = ')' || c = '|' ||
  c = '[' || c = ']' || c = '\\'

/-- Source `escapeRegex` on character lists:
`str.replace(/[.*+?^$\x7b\x7d()|[\]\\]/g, '\\$&')`. -/
def escapeChars (l : List Char) : List Char :=
  l.flatMap (fun c => if isRegexMeta c then ['\\', c] else [c])

/-- Source `escapeRegex` (string form). -/
def escapeRegex (s : String) : String := String.mk (escapeChars s.data)

/-- A lexed pattern token: a `*` quantifier or an atomic matcher. -/
inductive RTok
  | tstar
  | tatom (a : RAtom)
deriving DecidableEq

/-- Lexing phase of the engine's pattern parser: `\c` is an escaped literal
character, `.` the dot, `*` the quantifier token; any other metacharacter is
a compile error, as is a trailing backslash. -/
def lexRegex : List Char → Except String (List RTok)
  | [] => .ok []
  | c :: rest =>
    if c = '\\' then
      match rest with
      | [] => .error "pattern may not end with a trailing backslash"
      | d :: rest2 => (lexRegex rest2).map (fun ts => RTok.tatom (RAtom.rchar d) :: ts)
    else if c = '.' then (lexRegex rest).map (fun ts => RTok.tatom RAtom.rdot :: ts)
    else if c = '*' then (lexRegex rest).map (fun ts => RTok.tstar :: ts)
    else if isRegexMeta c then .error "unsupported or invalid metacharacter"
    else (lexRegex rest).map (fun ts => RTok.tatom (RAtom.rchar c) :: ts)

/-- Attachment phase: a `*` binds to the atom before it; a `*` with nothing
to repeat is a compile error. -/
def attachStars : List RTok → Except String RE
  | [] => .ok []
  | RTok.tstar :: _ => .error "nothing to repeat"
  | RTok.tatom a :: RTok.tstar :: rest => (attachStars rest).map (fun re => ⟨a, true⟩ :: re)
  | RTok.tatom a :: rest => (attachStars rest).map (fun re => ⟨a, false⟩ :: re)

/-- The engine's pattern parser: plain characters, `.`, `\c`, postfix `*`.
An unsupported metacharacter, a `*` with nothing to repeat, or a trailing
backslash is a compile error (the engine's diagnostic message). -/
def parseRegex (l : List Char) : Except String RE :=
  match lexRegex l with
  | .error e => .error e
  | .ok ts => attachStars ts

/-- Case-insensitive atom match (the `i` flag is always set by the source);
the dot does not match line terminators. -/
def atomMatches (a : RAtom) (c : Char) : Bool :=
  match a with
  | .rchar d => d.toLower == c.toLower
  | .rdot => !(c == '\n' || c == '\r')

/-- Length of the longest prefix every character of which matches the atom. -/
def maxRun (a : RAtom) : List Char → Nat
  | [] => 0
  | c :: t => if atomMatches a c then maxRun a t + 1 else 0

/-- Candidate consumption lengths of a greedy `*`, longest first. -/
def starLens (a : RAtom) (s : List Char) : List Nat :=
  (List.range (maxRun a s + 1)).reverse

/-- All candidate match lengths of the pattern at the head of `s`, in the
engine's backtracking preference order (greedy first). -/
def allLens : RE → List Char → List Nat
  | [], _ => [0]
  | it :: re, s =>
    if it.starred then
      (starLens it.atom s).flatMap (fun n => (allLens re (s.drop n)).map (fun m => n + m))
    else
      match s with
      | [] => []
      | c :: t => if atomMatches it.atom c then (allLens re t).map (fun m => m + 1) else []

/-- The length the engine's `exec` reports for a match anchored at the head
of `s` (the preferred candidate), or `none` when there is no match here. -/
def execLen (re : RE) (s : List Char) : Option Nat :=
  (allLens re s).head?

/-- Scan loop of a global `exec`, with the remaining number of candidate
positions as a structurally decreasing counter. -/
def findFromAux (re : RE) (text : List Char) : Nat → Nat → Option (Nat × Nat)
  | 0, _ => none
  | fuel + 1, pos =>
    if pos ≤ text.length then
      match execLen re (text.drop pos) with
      | some n => some (pos, n)
      | none => findFromAux re text fuel (pos + 1)
    else none

/-- The `exec` of a global regex: scan from `pos` for the first position with a
match; return the match position and length.  The counter
`text.length + 1 - pos` covers every remaining candidate position. -/
def findFrom (re : RE) (text : List Char) (pos : Nat) : Option (Nat × Nat) :=
  findFromAux re text (text.length + 1 - pos) pos

/-! ## Snippet extraction (`extractSnippets` in the source) -/

/-- One rendered snippet: clamped context window, `>>>` / `<<<` highlight
markers, ellipsis marker on a side when the window did not reach that end of
the text.  Nat subtraction `i - cc` is `Math.max(0, i - cc)`. -/
def mkSnippet (text : List Char) (i n cc : Nat) : List Char :=
  let start := i - cc
  let stop := min text.length (i + n + cc)
  let before := (text.take i).drop start
  let matched := (text.take (i + n)).drop i
  let after := (text.take stop).drop (i + n)
  let pre := if 0 < start then "...".data else []
  let suf := if stop < text.length then "...".data else []
  pre ++ before ++ ">>>".data ++ matched ++ "<<<".data ++ after ++ suf

/-- The `while ((match = globalRegex.exec(text)) !== null)` loop of
`extractSnippets`, with an explicit fuel so the loop is a plain function;
`none` is fuel exhaustion.  After a zero-length match the scan position is
advanced by one. -/
def snipLoop (re : RE) (text : List Char) (cc mm : Nat) :
    Nat → Nat → List (List Char) → Nat → Option (List (List Char) × Nat)
  | fuel, pos, snips, total =>
    match findFrom re text pos with
    | none => some (snips, total)
    | some (i, n) =>
      match fuel with
      | 0 => none
      | fuel' + 1 =>
        snipLoop re text cc mm fuel'
          (if n = 0 then i + n + 1 else i + n)
          (if snips.length < mm then snips ++ [mkSnippet text i n cc] else snips)
          (total + 1)

/-- Source `extractSnippets(text, regex, contextChars, maxMatches)`. The fuel
`text.length + 1` is sufficient (proved below), so the default is dead. -/
def extractSnippets (text : List Char) (re : RE) (cc mm : Nat) :
    List (List Char) × Nat :=
  (snipLoop re text cc mm (text.length + 1) 0 [] 0).getD ([], 0)

/-! ## Data model: captured exchanges -/

/-- A completed response of a captured exchange.  `body` is the lazily
readable `response.text()`: `none` models a read that throws. -/
structure Resp where
  url : String
  status : Nat
  statusText : String
  headers : List (String × String)
  body : Option String
deriving DecidableEq

/-- One captured exchange.  `resourceType` is the result of the fallible
`getResourceType` helper (`none` when `request.resourceType()` throws);
`response` is absent when the exchange never completed. -/
structure Exchange where
  method : String
  url : String
  reqHeaders : List (String × String)
  postData : Option String
  resourceType : Option String
  response : Option Resp
deriving DecidableEq

/-- JS header-object lookup `headers['k']` (unique keys, first hit). -/
def headerGet (hs : List (String × String)) (k : String) : Option String :=
  (hs.find? (fun p => p.1 == k)).map Prod.snd

/-! ## `network_utils.ts`: the Exchange Classifier -/

/-- The fixed tracking/analytics/ads host-fragment list of the source. -/
def FILTERED_DOMAINS : List String :=
  ["analytics.google.com", "google-analytics.com", "googletagmanager.com",
   "googleads.g.doubleclick.net", "doubleclick.net", "analytics.tiktok.com",
   "facebook.com", "connect.facebook.net", "clarity.ms", "j.clarity.ms",
   "fonts.googleapis.com", "fonts.gstatic.com", "cdnjs.cloudflare.com",
   "cdn.jsdelivr.net", "google.com/ccm", "google.com/pagead",
   "google.com/privacy_sandbox", "widget.privy.com", "api.privy.com",
   "tracking.midway.la", "scripts.clarity.ms"]

/-- The extension alternatives of `IMAGE_EXTENSIONS`. -/
def IMAGE_EXT_LIST : List String :=
  ["jpg", "jpeg", "png", "gif", "webp", "svg", "ico", "bmp", "tiff"]

/-- Test `IMAGE_EXTENSIONS.test(url)` for `/\.(jpg|jpeg|png|gif|webp|svg|ico|bmp|tiff)(\?|$)/i`:
somewhere in the URL a dot, an extension, then `?` or the end. -/
def imageExtTest (url : String) : Bool :=
  let l := (lowerStr url).data
  l.tails.any (fun t =>
    IMAGE_EXT_LIST.any (fun ext =>
      ('.' :: ext.data).isPrefixOf t &&
      (match t.drop (ext.data.length + 1) with
       | [] => true
       | '?' :: _ => true
       | _ => false)))

/-- Test `IMAGE_PATHS.test(url)` for `/\/imgs\//i`. -/
def imagePathTest (url : String) : Bool :=
  strContains (lowerStr url) "/imgs/"

/-- Source `shouldFilterRequest(url, resourceType)` from `network_utils.ts`. -/
def shouldFilterRequest (url : String) (resourceType : Option String) : Bool :=
  let urlLower := lowerStr url
  if FILTERED_DOMAINS.any (fun d => strContains urlLower d) then true
  else if imageExtTest url then true
  else if imagePathTest url then true
  else if resourceType == some "image" || resourceType == some "font" then true
  else false

/-! ## The Body Safety Gate (`safeGetResponseText`) -/

/-- The extension alternatives of `BINARY_EXTENSIONS`
(`woff2?` expanded to both spellings). -/
def BINARY_EXT_LIST : List String :=
  ["pdf", "zip", "gz", "tar", "rar", "7z", "exe", "dll", "so", "dylib",
   "woff", "woff2", "ttf", "otf", "eot"]

/-- Test `BINARY_CONTENT_TYPES.test(ct)` for `/^(image|audio|video)\//i`. -/
def binaryContentTypeTest (ct : String) : Bool :=
  let l := (lowerStr ct).data
  ["image/", "audio/", "video/"].any (fun p => p.data.isPrefixOf l)

/-- Test `BINARY_EXTENSIONS.test(url)` for
`/\.(pdf|zip|gz|tar|rar|7z|exe|dll|so|dylib|woff2?|ttf|otf|eot)$/i`. -/
def binaryExtTest (url : String) : Bool :=
  let l := (lowerStr url).data
  BINARY_EXT_LIST.any (fun ext => ('.' :: ext.data).isSuffixOf l)

/-- The single 5 MiB cap `MAX_RESPONSE_SIZE`. -/
def MAX_RESPONSE_SIZE : Nat := 5 * 1024 * 1024

/-- Value of the longest digit prefix, `none` when there is none. -/
def digitsVal (l : List Char) : Option Nat :=
  let ds := l.takeWhile Char.isDigit
  if ds.isEmpty then none
  else some (ds.foldl (fun acc c => acc * 10 + (c.toNat - 48)) 0)

/-- JS `parseInt(s, 10)`: trim leading whitespace, optional sign, longest
digit prefix; `none` models `NaN`. -/
def jsParseInt (s : String) : Option Int :=
  match s.data.dropWhile Char.isWhitespace with
  | '-' :: rest => (digitsVal rest).map (fun n => -(n : Int))
  | '+' :: rest => (digitsVal rest).map (fun n => (n : Int))
  | l => (digitsVal l).map (fun n => (n : Int))

/-- Source `safeGetResponseText(response)`: `none` is "unsafe or unavailable".
The `content-length` test mirrors `contentLength && parseInt(...) > MAX`
(absent or empty header is falsy; an unparseable one compares `NaN`, false). -/
def safeGetResponseText (response : Resp) : Option String :=
  let contentType := (headerGet response.headers "content-type").getD ""
  if binaryContentTypeTest contentType || binaryExtTest response.url then none
  else
    let contentLength := headerGet response.headers "content-length"
    if (match contentLength with
        | some cl =>
          cl != "" &&
          (match jsParseInt cl with
           | some v => decide ((MAX_RESPONSE_SIZE : Int) < v)
           | none => false)
        | none => false) then none
    else
      match response.body with
      | none => none
      | some text => if MAX_RESPONSE_SIZE < text.length then none else some text

/-! ## The Multi-Field Search Orchestrator (`network_search.ts`) -/

/-- The five searchable fields. -/
inductive SearchField
  | url
  | requestHeaders
  | requestBody
  | responseHeaders
  | responseBody
deriving DecidableEq

/-- The parameters of `browser_network_search` after schema defaulting. -/
structure SearchParams where
  query : String
  isRegex : Bool
  searchIn : List SearchField
  contextChars : Nat
  maxResults : Nat
  maxMatchesPerField : Nat
  includeFilteredDomains : Bool

/-- Source `formatHeaders`: `key: value` lines joined with newlines. -/
def formatHeaders (hs : List (String × String)) : String :=
  String.intercalate "\n" (hs.map (fun p => p.1 ++ ": " ++ p.2))

/-- Per-field aggregation (`FieldMatch` in the source). -/
structure FieldMatch where
  field : SearchField
  totalLength : Nat
  totalMatches : Nat
  snippets : List (List Char)
deriving DecidableEq

/-- Per-exchange aggregation (`RequestMatch` in the source). -/
structure RequestMatch where
  method : String
  url : String
  status : Option Nat
  statusText : String
  resourceType : String
  contentType : String
  fields : List FieldMatch
deriving DecidableEq

/-- The per-exchange field scan, in the fixed declared order
url, requestHeaders, requestBody, responseHeaders, responseBody.
`if (postData)` / `if (body)` truthiness skips `none` and the empty string. -/
def searchFieldsOf (p : SearchParams) (re : RE) (ex : Exchange) : List FieldMatch :=
  let f1 : List FieldMatch :=
    if p.searchIn.contains SearchField.url then
      let r := extractSnippets ex.url.data re p.contextChars p.maxMatchesPerField
      if 0 < r.2 then [⟨SearchField.url, ex.url.length, r.2, r.1⟩] else []
    else []
  let f2 : List FieldMatch :=
    if p.searchIn.contains SearchField.requestHeaders then
      let ht := formatHeaders ex.reqHeaders
      let r := extractSnippets ht.data re p.contextChars p.maxMatchesPerField
      if 0 < r.2 then [⟨SearchField.requestHeaders, ht.length, r.2, r.1⟩] else []
    else []
  let f3 : List FieldMatch :=
    if p.searchIn.contains SearchField.requestBody then
      match ex.postData with
      | some pd =>
        if pd != "" then
          let r := extractSnippets pd.data re p.contextChars p.maxMatchesPerField
          if 0 < r.2 then [⟨SearchField.requestBody, pd.length, r.2, r.1⟩] else []
        else []
      | none => []
    else []
  let f4 : List FieldMatch :=
    if p.searchIn.contains SearchField.responseHeaders then
      match ex.response with
      | some resp =>
        let ht := formatHeaders resp.headers
        let r := extractSnippets ht.data re p.contextChars p.maxMatchesPerField
        if 0 < r.2 then [⟨SearchField.responseHeaders, ht.length, r.2, r.1⟩] else []
      | none => []
    else []
  let f5 : List FieldMatch :=
    if p.searchIn.contains SearchField.responseBody then
      match ex.response with
      | some resp =>
        match safeGetResponseText resp with
        | some body =>
          if body != "" then
            let r := extractSnippets body.data re p.contextChars p.maxMatchesPerField
            if 0 < r.2 then [⟨SearchField.responseBody, body.length, r.2, r.1⟩] else []
          else []
        | none => []
      | none => []
    else []
  f1 ++ f2 ++ f3 ++ f4 ++ f5

/-- The `RequestMatch` record pushed for a matching exchange
(`resourceType || 'unknown'` and `content-type || ''` truthiness). -/
def mkRequestMatch (ex : Exchange) (fms : List FieldMatch) : RequestMatch :=
  ⟨upperStr ex.method,
   ex.url,
   ex.response.map Resp.status,
   (ex.response.map Resp.statusText).getD "",
   (match ex.resourceType with
    | some s => if s = "" then "unknown" else s
    | none => "unknown"),
   (match ex.response with
    | some r => (headerGet r.headers "content-type").getD ""
    | none => ""),
   fms⟩

/-- The scan loop of `networkSearch.handle`: skip classifier-filtered
exchanges, count considered exchanges, collect matching exchanges, and break
as soon as `maxResults` results have been pushed. -/
def searchLoop (p : SearchParams) (re : RE) :
    List Exchange → List RequestMatch → Nat → List RequestMatch × Nat
  | [], results, totalRequests => (results, totalRequests)
  | ex :: rest, results, totalRequests =>
    if !p.includeFilteredDomains && shouldFilterRequest ex.url ex.resourceType then
      searchLoop p re rest results totalRequests
    else
      let fms := searchFieldsOf p re ex
      if fms.isEmpty then
        searchLoop p re rest results (totalRequests + 1)
      else
        let results' := results ++ [mkRequestMatch ex fms]
        if p.maxResults ≤ results'.length then (results', totalRequests + 1)
        else searchLoop p re rest results' (totalRequests + 1)

/-- The Pattern Compiler step of the handle:
`new RegExp(isRegex ? query : escapeRegex(query), 'gi')`. -/
def compileSearchPattern (p : SearchParams) : Except String RE :=
  parseRegex (if p.isRegex then p.query.data else escapeChars p.query.data)

/-- Source `networkSearch.handle` on a capture store: compile once, on failure
short-circuit with the compile error, otherwise run the scan loop. -/
def searchHandle (store : List Exchange) (p : SearchParams) :
    Except String (List RequestMatch × Nat) :=
  match compileSearchPattern p with
  | .error e => .error ("Invalid regex pattern: " ++ e)
  | .ok re => .ok (searchLoop p re store [] 0)

/-- Decidable side condition: the run over `store` collected at least
`maxResults` results. -/
def searchReached (store : List Exchange) (p : SearchParams) : Bool :=
  match searchHandle store p with
  | .ok (res, _) => p.maxResults ≤ res.length
  | .error _ => false

/-! ## The Simplified Listing Renderer filter (`network_simplified.ts`) -/

/-- The per-exchange keep decision of `networkSimplified.handle`: the
flag-gated image and font checks, then the general classifier. -/
def simplifiedKeep (includeImages includeFonts : Bool) (ex : Exchange) : Bool :=
  if !includeImages &&
     (ex.resourceType == some "image" || imageExtTest ex.url || imagePathTest ex.url) then
    false
  else if !includeFonts && ex.resourceType == some "font" then
    false
  else if shouldFilterRequest ex.url ex.resourceType then
    false
  else
    true

/-- The exchanges surviving the simplified-listing filter, in capture order. -/
def networkSimplifiedFiltered (includeImages includeFonts : Bool)
    (store : List Exchange) : List Exchange :=
  store.filter (simplifiedKeep includeImages includeFonts)

/-! ## The Response Downloader (`network_download.ts`) -/

/-- The parameters of `browser_network_download` after schema defaulting.
`matchIndex` is a JS number, so it may be negative: `Int`. -/
structure DownloadParams where
  urlPattern : String
  isRegex : Bool
  outputPath : String
  matchIndex : Int
  includeFilteredDomains : Bool

/-- Filesystem effects of the handle, in order of execution. -/
inductive FsEffect
  | ensureDir (dir : String)
  | writeFile (path : String) (content : String)
deriving DecidableEq

/-- The structured outcomes reported by `networkDownload.handle`. -/
inductive DownloadOutcome
  | invalidPattern (msg : String)
  | notFound (pattern : String)
  | indexOutOfRange (given : Int) (count : Nat)
  | unsafeBody (url : String) (contentType : String)
  | success (url : String) (method : String) (status : Nat) (statusText : String)
      (contentType : String) (length : Nat) (savedTo : String)
      (totalMatches : Nat) (downloadedIndex : Int)
deriving DecidableEq

/-- The matcher builder: a case-insensitive regex test (`'i'` flag) or
lowercased-substring containment. -/
def dlCompile (p : DownloadParams) : Except String (String → Bool) :=
  if p.isRegex then
    match parseRegex p.urlPattern.data with
    | .error e => .error e
    | .ok re => .ok (fun url => (findFrom re url.data 0).isSome)
  else
    .ok (fun url => strContains (lowerStr url) (lowerStr p.urlPattern))

/-- Node `path.dirname` for the separator conventions used here. -/
def dirname (p : String) : String :=
  match p.data.reverse.dropWhile (fun c => c ≠ '/' && c ≠ '\\') with
  | [] => "."
  | [c] => String.mk [c]
  | _ :: rest => String.mk rest.reverse

/-- The collection loop of the handle: classifier unless overridden, only
exchanges with a completed response, URL matcher. -/
def collectMatches (test : String → Bool) (includeFilteredDomains : Bool) :
    List Exchange → List (Exchange × Resp)
  | [] => []
  | ex :: rest =>
    if !includeFilteredDomains && shouldFilterRequest ex.url ex.resourceType then
      collectMatches test includeFilteredDomains rest
    else
      match ex.response with
      | none => collectMatches test includeFilteredDomains rest
      | some resp =>
        if test ex.url then (ex, resp) :: collectMatches test includeFilteredDomains rest
        else collectMatches test includeFilteredDomains rest

/-- Source `networkDownload.handle`.  The result is `none` exactly when
`matches[params.matchIndex]` is `undefined` although the
`matchIndex >= matches.length` guard did not fire (a negative index): the
subsequent `selected.response` property access throws and no structured
outcome is produced. -/
def downloadHandle (store : List Exchange) (p : DownloadParams) :
    Option (DownloadOutcome × List FsEffect) :=
  match dlCompile p with
  | .error e => some (.invalidPattern ("Invalid regex pattern: " ++ e), [])
  | .ok test =>
    let ms := collectMatches test p.includeFilteredDomains store
    if ms.length = 0 then some (.notFound p.urlPattern, [])
    else if (ms.length : Int) ≤ p.matchIndex then
      some (.indexOutOfRange p.matchIndex ms.length, [])
    else
      match (if 0 ≤ p.matchIndex then ms.get? p.matchIndex.toNat else none) with
      | none => none
      | some sel =>
        match safeGetResponseText sel.2 with
        | none =>
          some (.unsafeBody sel.1.url
            ((headerGet sel.2.headers "content-type").getD "unknown"), [])
        | some body =>
          some (.success sel.1.url (upperStr sel.1.method) sel.2.status
              sel.2.statusText ((headerGet sel.2.headers "content-type").getD "unknown")
              body.length p.outputPath ms.length p.matchIndex,
            [FsEffect.ensureDir (dirname p.outputPath),
             FsEffect.writeFile p.outputPath body])

/-! ## Supporting lemmas: the matching engine -/

theorem maxRun_le (a : RAtom) : ∀ s : List Char, maxRun a s ≤ s.length := by
  intro s
  induction s with
  | nil => simp [maxRun]
  | cons c t ih =>
    simp only [maxRun, List.length_cons]
    split
    · omega
    · omega

theorem allLens_le : ∀ (re : RE) (s : List Char) (n : Nat), n ∈ allLens re s → n ≤ s.length := by
  intro re
  induction re with
  | nil =>
    intro s n h
    simp [allLens] at h
    omega
  | cons it re ih =>
    intro s n h
    simp only [allLens] at h
    by_cases hst : it.starred
    · simp only [hst, if_pos] at h
      simp only [List.mem_flatMap, List.mem_map] at h
      obtain ⟨k, hk, m, hm, rfl⟩ := h
      have hk' : k ≤ maxRun it.atom s := by
        simp [starLens, List.mem_reverse, List.mem_range] at hk
        omega
      have hm' : m ≤ (s.drop k).length := ih _ _ hm
      have := maxRun_le it.atom s
      simp [List.length_drop] at hm'
      omega
    · simp only [hst, if_neg, Bool.false_eq_true, not_false_iff] at h
      cases s with
      | nil => simp at h
      | cons c t =>
        by_cases hb : atomMatches it.atom c
        · simp only [hb, if_pos, List.mem_map] at h
          obtain ⟨m, hm, rfl⟩ := h
          have := ih t m hm
          simp [List.length_cons]
          omega
        · simp [hb] at h

theorem execLen_le (re : RE) (s : List Char) (n : Nat)
    (h : execLen re s = some n) : n ≤ s.length := by
  apply allLens_le re s
  unfold execLen at h
  cases hs : allLens re s with
  | nil => rw [hs] at h; simp at h
  | cons a t => rw [hs] at h; simp at h; simp [hs, h]

theorem findFromAux_some (re : RE) (text : List Char) :
    ∀ fuel pos i n, findFromAux re text fuel pos = some (i, n) →
      pos ≤ i ∧ i + n ≤ text.length := by
  intro fuel
  induction fuel with
  | zero => intro pos i n h; simp [findFromAux] at h
  | succ fuel ih =>
    intro pos i n h
    simp only [findFromAux] at h
    by_cases hp : pos ≤ text.length
    · rw [if_pos hp] at h
      cases he : execLen re (text.drop pos) with
      | some m =>
        rw [he] at h
        simp only [Option.some.injEq, Prod.mk.injEq] at h
        obtain ⟨h1, h2⟩ := h
        have h3 := execLen_le re (text.drop pos) m he
        simp [List.length_drop] at h3
        omega
      | none =>
        rw [he] at h
        have := ih (pos + 1) i n h
        omega
    · rw [if_neg hp] at h
      simp at h

theorem findFrom_some (re : RE) (text : List Char) (pos i n : Nat)
    (h : findFrom re text pos = some (i, n)) : pos ≤ i ∧ i + n ≤ text.length :=
  findFromAux_some re text _ pos i n h

/-! ## Supporting lemmas: snippet-loop termination -/

theorem snipLoop_isSome (re : RE) (text : List Char) (cc mm : Nat) :
    ∀ fuel pos snips total, text.length + 1 - pos ≤ fuel →
      (snipLoop re text cc mm fuel pos snips total).isSome = true := by
  intro fuel
  induction fuel with
  | zero =>
    intro pos snips total hle
    rw [snipLoop]
    cases hf : findFrom re text pos with
    | none => simp [hf]
    | some pr =>
      obtain ⟨i, n⟩ := pr
      exfalso
      have hb := findFrom_some re text pos i n hf
      omega
  | succ fuel ih =>
    intro pos snips total hle
    rw [snipLoop]
    cases hf : findFrom re text pos with
    | none => simp [hf]
    | some pr =>
      obtain ⟨i, n⟩ := pr
      simp only [hf]
      apply ih
      have hb := findFrom_some re text pos i n hf
      by_cases hn : n = 0
      · simp only [hn, if_pos]
        omega
      · rw [if_neg hn]
        omega

/-! ## Supporting lemmas: literal compilation -/

/-- The pattern a literal query denotes: its characters in sequence, unstarred. -/
def litRE (l : List Char) : RE := l.map (fun c => ⟨RAtom.rchar c, false⟩)

theorem lexRegex_escape (q : List Char) :
    lexRegex (escapeChars q) = .ok (q.map (fun c => RTok.tatom (RAtom.rchar c))) := by
  induction q with
  | nil => rfl
  | cons c q' ih =>
    cases hm : isRegexMeta c with
    | true =>
      have he : escapeChars (c :: q') = '\\' :: c :: escapeChars q' := by
        simp [escapeChars, hm]
      rw [he]
      simp [lexRegex, ih, Except.map]
    | false =>
      have hc1 : c ≠ '\\' := by intro h; rw [h] at hm; exact absurd hm (by decide)
      have hc2 : c ≠ '.' := by intro h; rw [h] at hm; exact absurd hm (by decide)
      have hc3 : c ≠ '*' := by intro h; rw [h] at hm; exact absurd hm (by decide)
      have he : escapeChars (c :: q') = c :: escapeChars q' := by
        simp [escapeChars, hm]
      rw [he]
      rw [lexRegex.eq_def]
      simp [hc1, hc2, hc3, hm, ih, Except.map]

theorem attachStars_atoms (q : List Char) :
    attachStars (q.map (fun c => RTok.tatom (RAtom.rchar c))) = .ok (litRE q) := by
  induction q with
  | nil => rfl
  | cons c q' ih =>
    cases q' with
    | nil => rfl
    | cons c2 t =>
      simp only [List.map_cons] at ih ⊢
      simp [attachStars, ih, litRE, Except.map]

/-- Escaping a literal query always compiles, to the sequence of its
characters as inert literal atoms. -/
theorem parseRegex_escape (q : List Char) :
    parseRegex (escapeChars q) = .ok (litRE q) := by
  unfold parseRegex
  rw [lexRegex_escape]
  exact attachStars_atoms q

/-- Case-insensitive "q is a prefix of s" (the only way a compiled literal
can match, since the `i` flag is always set). -/
def ciStarts : List Char → List Char → Bool
  | [], _ => true
  | _ :: _, [] => false
  | c :: q, d :: s => (c.toLower == d.toLower) && ciStarts q s

theorem allLens_lit (q : List Char) :
    ∀ s : List Char, allLens (litRE q) s = if ciStarts q s then [q.length] else [] := by
  induction q with
  | nil => intro s; simp [litRE, allLens, ciStarts]
  | cons c q' ih =>
    intro s
    cases s with
    | nil => simp [litRE, allLens, ciStarts]
    | cons d t =>
      have ih' := ih t
      simp only [litRE] at ih'
      simp only [litRE, List.map_cons, allLens, ciStarts]
      by_cases hb : atomMatches (RAtom.rchar c) d
      · have hb' : (c.toLower == d.toLower) = true := by
          simpa [atomMatches] using hb
        simp only [hb, hb', if_true]
        by_cases hc : ciStarts q' t
        · simp [hc, ih']
        · simp [hc, ih']
      · have hb' : (c.toLower == d.toLower) = false := by
          simpa [atomMatches] using hb
        simp [hb, hb']

/-- The compiled literal pattern matches at a position exactly when the query
occurs there literally (up to the always-set case-insensitivity), and the
reported match length is the query length. -/
theorem execLen_lit (q s : List Char) :
    execLen (litRE q) s = if ciStarts q s then some q.length else none := by
  unfold execLen
  rw [allLens_lit]
  by_cases hc : ciStarts q s
  · simp [hc]
  · simp [hc]

/-! ## Supporting lemmas: orchestrator short-circuit -/

theorem searchLoop_append (p : SearchParams) (re : RE) :
    ∀ (store rest : List Exchange) (acc : List RequestMatch) (tot : Nat),
      acc.length < p.maxResults →
      p.maxResults ≤ (searchLoop p re store acc tot).1.length →
      searchLoop p re (store ++ rest) acc tot = searchLoop p re store acc tot := by
  intro store
  induction store with
  | nil =>
    intro rest acc tot h1 h2
    simp only [searchLoop] at h2
    omega
  | cons ex s' ih =>
    intro rest acc tot h1 h2
    simp only [List.cons_append, searchLoop] at h2 ⊢
    by_cases hf : (!p.includeFilteredDomains && shouldFilterRequest ex.url ex.resourceType) = true
    · simp only [if_pos hf] at h2 ⊢
      exact ih rest acc tot h1 h2
    · simp only [if_neg hf] at h2 ⊢
      by_cases hm : (searchFieldsOf p re ex).isEmpty = true
      · simp only [if_pos hm] at h2 ⊢
        exact ih rest acc (tot + 1) h1 h2
      · simp only [if_neg hm] at h2 ⊢
        by_cases hcap : p.maxResults ≤ (acc ++ [mkRequestMatch ex (searchFieldsOf p re ex)]).length
        · simp only [if_pos hcap] at h2 ⊢
        · simp only [if_neg hcap] at h2 ⊢
          apply ih rest _ (tot + 1) _ h2
          simp only [List.length_append, List.length_cons, List.length_nil] at hcap ⊢
          omega

/-! ## Supporting lemmas: the classifier as a disjunction -/

theorem shouldFilterRequest_eq_or (url : String) (rt : Option String) :
    shouldFilterRequest url rt =
      (FILTERED_DOMAINS.any (fun d => strContains (lowerStr url) d) ||
       imageExtTest url || imagePathTest url ||
       (rt == some "image" || rt == some "font")) := by
  unfold shouldFilterRequest
  by_cases h1 : FILTERED_DOMAINS.any (fun d => strContains (lowerStr url) d) = true
  · simp [h1]
  · simp only [Bool.not_eq_true] at h1
    by_cases h2 : imageExtTest url = true
    · simp [h1, h2]
    · simp only [Bool.not_eq_true] at h2
      by_cases h3 : imagePathTest url = true
      · simp [h1, h2, h3]
      · simp only [Bool.not_eq_true] at h3
        by_cases h4 : (rt == some "image" || rt == some "font") = true
        · simp [h1, h2, h3, h4]
        · simp only [Bool.not_eq_true] at h4
          simp [h1, h2, h3, h4]

/-! ## Claim theorems -/

/-- C8: `shouldFilterRequest` is a pure total function returning true exactly
when the lowercased URL contains one of the fixed tracking/analytics domain
fragments, or the URL matches the fixed image-extension or image-path
pattern, or the resource type is exactly "image" or "font"; concretely,
`https://fonts.googleapis.com/x.css` is filtered and
`https://api.shop.com/v2/products?page=2` is not. -/
theorem shouldFilterCharacterization :
    (∀ (url : String) (resourceType : Option String),
       shouldFilterRequest url resourceType =
         (FILTERED_DOMAINS.any (fun d => strContains (lowerStr url) d) ||
          imageExtTest url || imagePathTest url ||
          (resourceType == some "image" || resourceType == some "font")))
    ∧ shouldFilterRequest "https://fonts.googleapis.com/x.css" none = true
    ∧ shouldFilterRequest "https://api.shop.com/v2/products?page=2" none = false :=
  ⟨shouldFilterRequest_eq_or, by decide, by decide⟩

/-- C4: compiling a literal (non-regex) query escapes every regex
metacharacter, always succeeds, and the compiled pattern matches exactly the
literal occurrences of the query (up to the always-set case-insensitivity):
`a.b` never matches `aXb`, but is found case-insensitively inside `xA.By`;
the compiled pattern iterates every match, not just the first. -/
theorem literalCompileExact :
    (∀ (q : String) (fields : List SearchField) (cc mr mm : Nat) (inc : Bool),
       compileSearchPattern ⟨q, false, fields, cc, mr, mm, inc⟩ = .ok (litRE q.data))
    ∧ (∀ q s : List Char,
         execLen (litRE q) s = if ciStarts q s then some q.length else none)
    ∧ findFrom (litRE "a.b".data) "aXb".data 0 = none
    ∧ findFrom (litRE "a.b".data) "xA.By".data 0 = some (1, 3)
    ∧ (extractSnippets "a.b a.b".data (litRE "a.b".data) 1 3).2 = 2 :=
  ⟨fun q _ _ _ _ _ => parseRegex_escape q.data,
   execLen_lit, by decide, by decide, by decide⟩

/-- C5: the snippet extractor terminates on every finite text and every
pattern, including patterns matching the empty string such as `x*`: fuel
`text.length + 1` never runs out because a zero-length match advances the
scan position by one; concretely `x*` against `axb` yields 4 matches. -/
theorem extractTerminates :
    (∀ (re : RE) (text : List Char) (cc mm : Nat),
       (snipLoop re text cc mm (text.length + 1) 0 [] 0).isSome = true)
    ∧ parseRegex ['x', '*'] = .ok [⟨RAtom.rchar 'x', true⟩]
    ∧ (extractSnippets ['a', 'x', 'b'] [⟨RAtom.rchar 'x', true⟩] 2 3).2 = 4 :=
  ⟨fun re text cc mm =>
     snipLoop_isSome re text cc mm (text.length + 1) 0 [] 0 (by omega),
   rfl, by decide⟩

/-- C2: a regex query whose pattern the engine rejects makes the search fail
immediately with the engine's diagnostic message verbatim; the result does
not depend on the store, so no exchange is scanned and no partial result is
produced. -/
theorem invalidPatternAborts (p : SearchParams) (msg : String)
    (hreg : p.isRegex = true) (herr : parseRegex p.query.data = .error msg) :
    ∀ store : List Exchange,
      searchHandle store p = .error ("Invalid regex pattern: " ++ msg) := by
  intro store
  unfold searchHandle compileSearchPattern
  rw [hreg]
  simp [herr]

/-- The invalid-pattern search parameters used as concrete witness input. -/
def starParams : SearchParams :=
  ⟨"*", true, [SearchField.url], 120, 20, 3, false⟩

theorem invalidPatternAborts_witness :
    starParams.isRegex = true ∧
    parseRegex starParams.query.data = .error "nothing to repeat" ∧
    searchHandle [] starParams = .error ("Invalid regex pattern: " ++ "nothing to repeat") :=
  ⟨rfl, rfl, invalidPatternAborts starParams "nothing to repeat" rfl rfl []⟩

/-! ## C9: the include-flags of the simplified listing -/

theorem simplifiedKeep_eq (b1 b2 : Bool) (ex : Exchange) :
    simplifiedKeep b1 b2 ex = !shouldFilterRequest ex.url ex.resourceType := by
  unfold simplifiedKeep
  by_cases hs : shouldFilterRequest ex.url ex.resourceType = true
  · by_cases hi : (!b1 && (ex.resourceType == some "image" ||
        imageExtTest ex.url || imagePathTest ex.url)) = true
    · simp [hi, hs]
    · simp only [Bool.not_eq_true] at hi
      by_cases hf : (!b2 && (ex.resourceType == some "font")) = true
      · simp [hi, hf, hs]
      · simp only [Bool.not_eq_true] at hf
        simp [hi, hf, hs]
  · simp only [Bool.not_eq_true] at hs
    have hor := (shouldFilterRequest_eq_or ex.url ex.resourceType).symm
    rw [hs] at hor
    have hB : imageExtTest ex.url = false := by
      cases h : imageExtTest ex.url
      · rfl
      · rw [h] at hor
        simp only [Bool.true_or, Bool.or_true] at hor
        exact absurd hor (by decide)
    have hC : imagePathTest ex.url = false := by
      cases h : imagePathTest ex.url
      · rfl
      · rw [h] at hor
        simp only [Bool.true_or, Bool.or_true] at hor
        exact absurd hor (by decide)
    have hD : (ex.resourceType == some "image") = false := by
      cases h : (ex.resourceType == some "image")
      · rfl
      · rw [h] at hor
        simp only [Bool.true_or, Bool.or_true] at hor
        exact absurd hor (by decide)
    have hE : (ex.resourceType == some "font") = false := by
      cases h : (ex.resourceType == some "font")
      · rfl
      · rw [h] at hor
        simp only [Bool.true_or, Bool.or_true] at hor
        exact absurd hor (by decide)
    have himg : (ex.resourceType == some "image" || imageExtTest ex.url ||
        imagePathTest ex.url) = false := by
      rw [hD, hB, hC]
      rfl
    simp only [himg, hE, Bool.and_false, hs, Bool.not_false]
    simp

/-- An image exchange whose URL passes every non-image classifier test. -/
def c9ImageEx : Exchange :=
  ⟨"get", "https://shop.example.com/product.png", [], none, some "image", none⟩

/-- A font exchange whose URL passes every non-font classifier test. -/
def c9FontEx : Exchange :=
  ⟨"get", "https://shop.example.com/styles/f", [], none, some "font", none⟩

/-- C9 (the code contradicts this claim and its own option documentation):
the include-flags of the simplified listing are dead switches.  The general
classifier is applied unconditionally after the flag-gated checks and itself
excludes images and fonts, so the surviving exchanges are exactly the
classifier-negative ones whatever the flags; in particular an image
(respectively font) exchange is dropped even with `includeImages = true`
(respectively `includeFonts = true`). -/
theorem includeFlagsIneffective :
    (∀ (b1 b2 : Bool) (store : List Exchange),
       networkSimplifiedFiltered b1 b2 store =
         store.filter (fun ex => !shouldFilterRequest ex.url ex.resourceType))
    ∧ networkSimplifiedFiltered true true [c9ImageEx] = []
    ∧ networkSimplifiedFiltered true true [c9FontEx] = [] := by
  refine ⟨?_, by decide, by decide⟩
  intro b1 b2 store
  unfold networkSimplifiedFiltered
  induction store with
  | nil => rfl
  | cons ex s ih =>
    simp only [List.filter_cons, simplifiedKeep_eq, ih]

/-! ## C6: the snippet window -/

/-- The shape a rendered snippet must have: ordered in-bounds window
boundaries, the matched span wrapped in `>>>` / `<<<`, and an ellipsis on a
side exactly when the window did not reach that end of the text. -/
def SnippetSpec (text : List Char) (i n cc : Nat) : Prop :=
  i - cc ≤ i ∧
  i + n ≤ min text.length (i + n + cc) ∧
  min text.length (i + n + cc) ≤ text.length ∧
  ∃ pre suf : List Char,
    mkSnippet text i n cc =
      pre ++ ((text.take i).drop (i - cc)) ++ ">>>".data ++
        ((text.take (i + n)).drop i) ++ "<<<".data ++
        ((text.take (min text.length (i + n + cc))).drop (i + n)) ++ suf ∧
    (pre = "...".data ∨ pre = []) ∧ (pre ≠ [] ↔ 0 < i - cc) ∧
    (suf = "...".data ∨ suf = []) ∧
    (suf ≠ [] ↔ min text.length (i + n + cc) < text.length)

/-- C6: every recorded match with an in-bounds span produces a snippet whose
context window is clamped to `[0, text.length]`, whose matched span is
wrapped in literal `>>>` / `<<<` markers, and which carries a leading
(trailing) ellipsis exactly when the left (right) side of the window was
clamped. -/
theorem snippetWindowClamped (text : List Char) (i n cc : Nat)
    (h : i + n ≤ text.length) : SnippetSpec text i n cc := by
  unfold SnippetSpec
  refine ⟨Nat.sub_le i cc, by omega, by omega, ?_⟩
  refine ⟨if 0 < i - cc then "...".data else [],
          if min text.length (i + n + cc) < text.length then "...".data else [],
          rfl, ?_, ?_, ?_, ?_⟩
  · by_cases h0 : 0 < i - cc
    · left; rw [if_pos h0]
    · right; rw [if_neg h0]
  · by_cases h0 : 0 < i - cc
    · rw [if_pos h0]
      simp [h0]
    · rw [if_neg h0]
      simp [h0]
  · by_cases h1 : min text.length (i + n + cc) < text.length
    · left; rw [if_pos h1]
    · right; rw [if_neg h1]
  · by_cases h1 : min text.length (i + n + cc) < text.length
    · rw [if_pos h1]
      simp [h1]
    · rw [if_neg h1]
      simp [h1]

theorem snippetWindowClamped_witness :
    1 + 2 ≤ "hello".data.length ∧ SnippetSpec "hello".data 1 2 1 :=
  ⟨by decide, snippetWindowClamped "hello".data 1 2 1 (by decide)⟩

/-! ## C3: the Body Safety Gate -/

/-- C3: the gate rejects without reading (for every possible body value)
when the content-type has an image/audio/video major type or the URL has a
binary extension; rejects before reading when a present, non-empty,
parseable `content-length` exceeds the 5 MiB cap; rejects after the read
when the realized text exceeds the same cap; and turns a failed body read
into an absent result instead of an error.  The cap is the single constant
`5 * 1024 * 1024`. -/
theorem bodySafetyGate (r : Resp) :
    ((binaryContentTypeTest ((headerGet r.headers "content-type").getD "") = true ∨
        binaryExtTest r.url = true) →
      ∀ b : Option String, safeGetResponseText { r with body := b } = none)
    ∧ (∀ cl v, headerGet r.headers "content-length" = some cl → cl ≠ "" →
        jsParseInt cl = some v → (MAX_RESPONSE_SIZE : Int) < v →
        ∀ b : Option String, safeGetResponseText { r with body := b } = none)
    ∧ (r.body = none → safeGetResponseText r = none)
    ∧ (∀ t, r.body = some t → MAX_RESPONSE_SIZE < t.length →
        safeGetResponseText r = none)
    ∧ MAX_RESPONSE_SIZE = 5 * 1024 * 1024 := by
  refine ⟨?_, ?_, ?_, ?_, rfl⟩
  · intro h b
    unfold safeGetResponseText
    rcases h with h | h
    · simp [h]
    · simp [h]
  · intro cl v hcl hne hpi hlt b
    unfold safeGetResponseText
    by_cases hbin : (binaryContentTypeTest ((headerGet r.headers "content-type").getD "") ||
        binaryExtTest r.url) = true
    · simp [hbin]
    · simp only [Bool.not_eq_true] at hbin
      have hne' : (cl == "") = false := by
        cases h : (cl == "")
        · rfl
        · exact absurd (by simpa using h) hne
      have hcond : (match headerGet r.headers "content-length" with
          | some cl => cl != "" &&
              (match jsParseInt cl with
               | some v => decide ((MAX_RESPONSE_SIZE : Int) < v)
               | none => false)
          | none => false) = true := by
        rw [hcl]
        simp only [hpi]
        simp [bne, hne', hlt]
      simp [hbin, hcond]
  · intro h
    unfold safeGetResponseText
    by_cases hbin : (binaryContentTypeTest ((headerGet r.headers "content-type").getD "") ||
        binaryExtTest r.url) = true
    · simp [hbin]
    · simp only [Bool.not_eq_true] at hbin
      simp [hbin, h]
  · intro t h hlt
    unfold safeGetResponseText
    by_cases hbin : (binaryContentTypeTest ((headerGet r.headers "content-type").getD "") ||
        binaryExtTest r.url) = true
    · simp [hbin]
    · simp only [Bool.not_eq_true] at hbin
      simp [hbin, h, hlt]

/-- A response rejected on its content type alone. -/
def pngResp : Resp :=
  ⟨"https://s.io/stream", 200, "OK", [("content-type", "image/png")], some "x"⟩

/-- A response rejected on its declared length alone. -/
def bigDeclResp : Resp :=
  ⟨"https://s.io/data", 200, "OK", [("content-length", "6000000")], some "x"⟩

/-- A response whose body read fails. -/
def failResp : Resp := ⟨"https://s.io/data", 200, "OK", [], none⟩

/-- A realized body one character over the cap. -/
def hugeBody : String := String.mk (List.replicate (5 * 1024 * 1024 + 1) 'a')

/-- A response whose realized body exceeds the cap. -/
def hugeResp : Resp := ⟨"https://s.io/data", 200, "OK", [], some hugeBody⟩

theorem bodySafetyGate_witness :
    safeGetResponseText { pngResp with body := some "x" } = none ∧
    safeGetResponseText { bigDeclResp with body := some "x" } = none ∧
    safeGetResponseText failResp = none ∧
    safeGetResponseText hugeResp = none :=
  ⟨(bodySafetyGate pngResp).1 (Or.inl (by decide)) (some "x"),
   (bodySafetyGate bigDeclResp).2.1 "6000000" 6000000 rfl (by decide) rfl
     (by decide) (some "x"),
   (bodySafetyGate failResp).2.2.1 rfl,
   (bodySafetyGate hugeResp).2.2.2.1 hugeBody rfl
     (by
       have hlen : hugeBody.length = 5 * 1024 * 1024 + 1 := by
         show (String.mk (List.replicate (5 * 1024 * 1024 + 1) 'a')).data.length =
           5 * 1024 * 1024 + 1
         rw [show (String.mk (List.replicate (5 * 1024 * 1024 + 1) 'a')).data =
           List.replicate (5 * 1024 * 1024 + 1) 'a' from rfl]
         exact List.length_replicate _ _
       rw [hlen]
       norm_num [MAX_RESPONSE_SIZE])⟩

/-! ## C1: orchestrator short-circuit at `maxResults` -/

/-- Concrete search parameters: `maxResults = 1`, default fields. -/
def c1Params : SearchParams :=
  ⟨"item", false,
   [SearchField.url, SearchField.requestBody, SearchField.responseBody],
   120, 1, 3, false⟩

/-- A qualifying exchange: its URL matches the query and no classifier test. -/
def c1Ex (u : String) : Exchange := ⟨"get", u, [], none, none, none⟩

/-- A store of five qualifying exchanges. -/
def c1Store : List Exchange :=
  [c1Ex "https://s.io/item1", c1Ex "https://s.io/item2", c1Ex "https://s.io/item3",
   c1Ex "https://s.io/item4", c1Ex "https://s.io/item5"]

/-- C1: once the run over a store has collected `maxResults` results, the
scan has stopped: appending any further exchanges changes nothing — neither
results nor the considered-exchanges counter — so later exchanges are never
field-searched.  Concretely, `maxResults = 1` against five qualifying
exchanges returns exactly one result and equals the search of the
one-exchange prefix. -/
theorem searchShortCircuits :
    (∀ (store rest : List Exchange) (p : SearchParams),
       0 < p.maxResults → searchReached store p = true →
       searchHandle (store ++ rest) p = searchHandle store p)
    ∧ (match searchHandle c1Store c1Params with
       | .ok (res, _) => res.length
       | .error _ => 0) = 1
    ∧ searchHandle c1Store c1Params = searchHandle [c1Ex "https://s.io/item1"] c1Params := by
  have main : ∀ (store rest : List Exchange) (p : SearchParams),
      0 < p.maxResults → searchReached store p = true →
      searchHandle (store ++ rest) p = searchHandle store p := by
    intro store rest p h0 hr
    unfold searchReached at hr
    cases hh : searchHandle store p with
    | error e => rw [hh] at hr; simp at hr
    | ok pr =>
      obtain ⟨res, tot⟩ := pr
      rw [hh] at hr
      have hle : p.maxResults ≤ res.length := by simpa using hr
      unfold searchHandle at hh ⊢
      cases hc : compileSearchPattern p with
      | error e =>
        rw [hc] at hh
        exact absurd hh (by simp)
      | ok re =>
        rw [hc] at hh
        have hloop : searchLoop p re store [] 0 = (res, tot) := by
          simpa using hh
        have h2 : p.maxResults ≤ (searchLoop p re store [] 0).1.length := by
          rw [hloop]
          exact hle
        show Except.ok (searchLoop p re (store ++ rest) [] 0) = Except.ok (res, tot)
        rw [searchLoop_append p re store rest [] 0 (by simpa using h0) h2, hloop]
  refine ⟨main, by decide, ?_⟩
  have hsplit : c1Store = [c1Ex "https://s.io/item1"] ++
      [c1Ex "https://s.io/item2", c1Ex "https://s.io/item3",
       c1Ex "https://s.io/item4", c1Ex "https://s.io/item5"] := rfl
  rw [hsplit]
  exact main _ _ _ (by decide) (by decide)

theorem searchShortCircuits_witness :
    0 < c1Params.maxResults ∧
    searchReached [c1Ex "https://s.io/item1"] c1Params = true ∧
    searchHandle ([c1Ex "https://s.io/item1"] ++
        [c1Ex "https://s.io/item2", c1Ex "https://s.io/item3",
         c1Ex "https://s.io/item4", c1Ex "https://s.io/item5"]) c1Params =
      searchHandle [c1Ex "https://s.io/item1"] c1Params :=
  ⟨by decide, by decide, searchShortCircuits.1 _ _ _ (by decide) (by decide)⟩

/-! ## C7 and C10: the downloader -/

/-- C7: with a compiled matcher, the handle reports `NotFound` (with the
pattern) when no non-filtered completed exchange matches, `IndexOutOfRange`
(with the count) when `matchIndex` is at least the match count, and
`UnsafeBody` (with the observed content-type) when the gate rejects the
selected match — each with no filesystem effect; only on success does it
write the body to `outputPath`, after an ensure-directory effect on the
output path's parent. -/
theorem downloadOutcomes (store : List Exchange) (p : DownloadParams) :
    (∀ t, dlCompile p = .ok t →
       collectMatches t p.includeFilteredDomains store = [] →
       downloadHandle store p = some (.notFound p.urlPattern, []))
    ∧ (∀ t ms, dlCompile p = .ok t →
       collectMatches t p.includeFilteredDomains store = ms → ms ≠ [] →
       (ms.length : Int) ≤ p.matchIndex →
       downloadHandle store p = some (.indexOutOfRange p.matchIndex ms.length, []))
    ∧ (∀ t ms sel, dlCompile p = .ok t →
       collectMatches t p.includeFilteredDomains store = ms →
       0 ≤ p.matchIndex → ms.get? p.matchIndex.toNat = some sel →
       safeGetResponseText sel.2 = none →
       downloadHandle store p = some (.unsafeBody sel.1.url
         ((headerGet sel.2.headers "content-type").getD "unknown"), []))
    ∧ (∀ t ms sel body, dlCompile p = .ok t →
       collectMatches t p.includeFilteredDomains store = ms →
       0 ≤ p.matchIndex → ms.get? p.matchIndex.toNat = some sel →
       safeGetResponseText sel.2 = some body →
       downloadHandle store p = some (.success sel.1.url (upperStr sel.1.method)
         sel.2.status sel.2.statusText
         ((headerGet sel.2.headers "content-type").getD "unknown") body.length
         p.outputPath ms.length p.matchIndex,
         [FsEffect.ensureDir (dirname p.outputPath),
          FsEffect.writeFile p.outputPath body])) := by
  refine ⟨?_, ?_, ?_, ?_⟩
  · intro t hc hm
    simp [downloadHandle, hc, hm]
  · intro t ms hc hm hne hle
    have hlen0 : ms.length ≠ 0 := by
      cases ms
      · exact absurd rfl hne
      · simp
    simp [downloadHandle, hc, hm, hlen0, hle]
  · intro t ms sel hc hm h0 hsel hgate
    have hlt : p.matchIndex.toNat < ms.length := (List.get?_eq_some.mp hsel).1
    have hsel' : ms[p.matchIndex.toNat]? = some sel := by
      rw [← List.get?_eq_getElem?]
      exact hsel
    have hnle : ¬ ((ms.length : Int) ≤ p.matchIndex) := by omega
    have hlen0 : ms.length ≠ 0 := by omega
    simp [downloadHandle, hc, hm, hlen0, hnle, h0, hsel', hgate]
  · intro t ms sel body hc hm h0 hsel hgate
    have hlt : p.matchIndex.toNat < ms.length := (List.get?_eq_some.mp hsel).1
    have hsel' : ms[p.matchIndex.toNat]? = some sel := by
      rw [← List.get?_eq_getElem?]
      exact hsel
    have hnle : ¬ ((ms.length : Int) ≤ p.matchIndex) := by omega
    have hlen0 : ms.length ≠ 0 := by omega
    simp [downloadHandle, hc, hm, hlen0, hnle, h0, hsel', hgate]

/-- C10: a negative `matchIndex` with at least one match slips past the
`matchIndex >= matches.length` guard, the selection misses (the `None`
branch of the modelled `matches[matchIndex]`), and the handle produces no
structured outcome at all. -/
theorem negativeIndexCrashes (store : List Exchange) (p : DownloadParams)
    (t : String → Bool) (hc : dlCompile p = .ok t) (hneg : p.matchIndex < 0)
    (hne : collectMatches t p.includeFilteredDomains store ≠ []) :
    downloadHandle store p = none := by
  have hlen0 : (collectMatches t p.includeFilteredDomains store).length ≠ 0 := by
    cases h : collectMatches t p.includeFilteredDomains store
    · exact absurd h hne
    · simp [h]
  have hnle : ¬ (((collectMatches t p.includeFilteredDomains store).length : Int) ≤
      p.matchIndex) := by omega
  have h0 : ¬ (0 ≤ p.matchIndex) := by omega
  simp [downloadHandle, hc, hlen0, hnle, h0]

/-- A completed JSON exchange for the downloader witnesses. -/
def dlResp : Resp :=
  ⟨"https://s.io/data.json", 200, "OK", [("content-type", "application/json")],
   some "[1,2]"⟩

def dlEx : Exchange := ⟨"get", "https://s.io/data.json", [], none, none, some dlResp⟩

/-- A completed exchange whose body the gate rejects (binary content type). -/
def dlUnsafeResp : Resp :=
  ⟨"https://s.io/stream", 200, "OK", [("content-type", "image/png")], some "x"⟩

def dlUnsafeEx : Exchange := ⟨"get", "https://s.io/stream", [], none, none, some dlUnsafeResp⟩

def dlP1 : DownloadParams := ⟨"nonexistent", false, "/tmp/out.json", 0, false⟩

def dlP2 : DownloadParams := ⟨"data", false, "/tmp/o.json", 5, false⟩

def dlP3 : DownloadParams := ⟨"stream", false, "/tmp/o.bin", 0, false⟩

def dlP4 : DownloadParams := ⟨"data", false, "/tmp/o.json", 0, false⟩

def dlP5 : DownloadParams := ⟨"data", false, "/tmp/o.json", -1, false⟩

/-- The literal matcher `dlCompile` builds for `dlP5`. -/
def dlP5matcher : String → Bool :=
  fun url => strContains (lowerStr url) (lowerStr "data")

theorem downloadOutcomes_witness :
    downloadHandle [] dlP1 = some (.notFound "nonexistent", []) ∧
    downloadHandle [dlEx] dlP2 = some (.indexOutOfRange 5 1, []) ∧
    downloadHandle [dlUnsafeEx] dlP3 =
      some (.unsafeBody "https://s.io/stream" "image/png", []) ∧
    downloadHandle [dlEx] dlP4 =
      some (.success "https://s.io/data.json" "GET" 200 "OK" "application/json" 5
          "/tmp/o.json" 1 0,
        [FsEffect.ensureDir "/tmp", FsEffect.writeFile "/tmp/o.json" "[1,2]"]) :=
  ⟨(downloadOutcomes [] dlP1).1 _ rfl rfl,
   (downloadOutcomes [dlEx] dlP2).2.1 _ [(dlEx, dlResp)] rfl rfl (by simp) (by decide),
   (downloadOutcomes [dlUnsafeEx] dlP3).2.2.1 _ [(dlUnsafeEx, dlUnsafeResp)]
     (dlUnsafeEx, dlUnsafeResp) rfl rfl (by decide) rfl (by decide),
   (downloadOutcomes [dlEx] dlP4).2.2.2 _ [(dlEx, dlResp)] (dlEx, dlResp) "[1,2]"
     rfl rfl (by decide) rfl (by decide)⟩

theorem negativeIndexCrashes_witness :
    dlP5.matchIndex < 0 ∧
    collectMatches dlP5matcher dlP5.includeFilteredDomains [dlEx] ≠ [] ∧
    downloadHandle [dlEx] dlP5 = none :=
  ⟨by decide, by decide,
   negativeIndexCrashes [dlEx] dlP5 dlP5matcher rfl (by decide) (by decide)⟩

end NetCapture
